import Mathlib

set_option maxHeartbeats 1000000

/-
Verification development for the portfolio-jobs pipeline.

The two source files are shallow-embedded here:
  - the scraper (orchestrator, provider classifier, static-board adapters,
    global dedup) and
  - the build pass (normalizeJob, accept and reject routing, company summary).

External collaborators are abstracted as parameters: the SHA-1 digest is an
arbitrary function `hash : String -> String`, the platform URL parser and
resolver are `parseUrl : String -> Option Url` and
`resolveUrl : String -> String -> Option String`, timestamps are an opaque
`now : String`, and a fetched page is given as its list of anchors.
The JavaScript regex class backslash-s is modelled by the ASCII whitespace
set, and toLowerCase by the ASCII lowering, which agree with the sources on
every input considered here.
-/

namespace PortfolioJobs

/-- ASCII whitespace, the model of the regex whitespace class. -/
def isWsChar (c : Char) : Bool :=
  c == ' ' || c == '\t' || c == '\n' || c == '\r' || c == '\x0b' || c == '\x0c'

/-- Word characters of the regex word-boundary, exactly A-Z a-z 0-9 underscore. -/
def isWordChar (c : Char) : Bool := c.isAlpha || c.isDigit || c == '_'

def lowerL (l : List Char) : List Char := l.map Char.toLower

def strOf (l : List Char) : String := ⟨l⟩

def lowerStr (s : String) : String := strOf (lowerL s.data)

def isPrefixL : List Char → List Char → Bool
  | [], _ => true
  | _ :: _, [] => false
  | a :: as, b :: bs => a == b && isPrefixL as bs

def containsL (needle : List Char) : List Char → Bool
  | [] => needle.isEmpty
  | c :: cs => isPrefixL needle (c :: cs) || containsL needle cs

/-- String containment, the model of JavaScript includes and of a plain
substring regex test. -/
def containsSub (s sub : String) : Bool := containsL sub.data s.data

def isSuffixL (suf l : List Char) : Bool := isPrefixL suf.reverse l.reverse

def startsWithStr (s p : String) : Bool := isPrefixL p.data s.data

def endsWithStr (s p : String) : Bool := isSuffixL p.data s.data

/-- The part of a string before the first occurrence of a separator:
JavaScript split(sep)[0]. -/
def takeUntilL (sep : List Char) : List Char → List Char
  | [] => []
  | c :: cs => if isPrefixL sep (c :: cs) then [] else c :: takeUntilL sep cs

def takeUntilSub (s sep : String) : String := strOf (takeUntilL sep.data s.data)

def dropRightL (l : List Char) (n : Nat) : List Char := l.take (l.length - n)

def getLastQ : List Char → Option Char
  | [] => none
  | [c] => some c
  | _ :: c :: cs => getLastQ (c :: cs)

/-- One pass collapsing every whitespace run to a single space; the flag
records whether the previously emitted character was the collapsed space. -/
def collapseGo : Bool → List Char → List Char
  | _, [] => []
  | prevWs, c :: cs =>
    if isWsChar c then
      if prevWs then collapseGo true cs else ' ' :: collapseGo true cs
    else c :: collapseGo false cs

def rtrimWsL (l : List Char) : List Char := (l.reverse.dropWhile isWsChar).reverse

def trimList (l : List Char) : List Char := rtrimWsL (l.dropWhile isWsChar)

/-- The helper named clean in the scraper and cleanText in the build pass:
replace every whitespace run by one space, then trim. -/
def cleanText (s : String) : String := strOf (trimList (collapseGo false s.data))

/-- JavaScript trim. -/
def trimStr (s : String) : String := strOf (trimList s.data)

def boundaryOk : Option Char → Bool
  | none => true
  | some c => !(isWordChar c)

def wordAfterOk (rest : List Char) : Bool :=
  match rest with
  | [] => true
  | c :: _ => !(isWordChar c)

/-- Scan for a whole-word occurrence of a needle whose first and last
characters are word characters; prev is the character before the scan
position, used for the left word boundary. -/
def containsWordAux (needle : List Char) : Option Char → List Char → Bool
  | _, [] => false
  | prev, c :: cs =>
    (boundaryOk prev && isPrefixL needle (c :: cs)
      && wordAfterOk ((c :: cs).drop needle.length))
    || containsWordAux needle (some c) cs

def containsWord (needle hay : List Char) : Bool := containsWordAux needle none hay

/-- Generic leftmost scan with the previous character tracked. -/
def scanAux (p : Option Char → List Char → Bool) : Option Char → List Char → Bool
  | _, [] => false
  | prev, c :: cs => p prev (c :: cs) || scanAux p (some c) cs

/-- Erase everything from the first position where p matches to the end of the
string: the model of replace of a to-end-anchored regex by the empty string,
and of split at a matched position taking the first piece. -/
def cutAtFirst (p : List Char → Bool) : List Char → List Char
  | [] => []
  | c :: cs => if p (c :: cs) then [] else c :: cutAtFirst p cs

def cutAtFirstP (p : Option Char → List Char → Bool) : Option Char → List Char → List Char
  | _, [] => []
  | prev, c :: cs => if p prev (c :: cs) then [] else c :: cutAtFirstP p (some c) cs

-- ------------------------------------------------------------------
-- Text Normalizer (build pass, normalizeJob and its helpers)
-- ------------------------------------------------------------------

def junkTitles : List String :=
  ["careers", "get in touch", "get started", "log in", "login",
   "privacy policy", "security", "vulnerability disclosure", "powered by ashby"]

/-- The closed denylist of known non-job anchor texts. -/
def looksLikeJobTitle (title : String) : Bool := !(junkTitles.contains (lowerStr title))

/-- The junk-URL regex of normalizeJob, case-insensitive. -/
def urlJunkTest (url : String) : Bool :=
  let u := lowerStr url
  containsSub u "privacy" || containsSub u "security" || containsSub u "disclosure" ||
  containsSub u "login" || containsSub u "signup" ||
  endsWithStr u "ashbyhq.com" || endsWithStr u "ashbyhq.com/"

def isTokenChar (c : Char) : Bool :=
  (decide ('A' ≤ c) && decide (c ≤ 'Z')) || c.isDigit || c == '_'

/-- A percent sign, one or more characters of A-Z 0-9 underscore, then a
percent sign, starting at this position. -/
def placeholderAt : List Char → Bool
  | '%' :: rest =>
    (match rest.takeWhile isTokenChar, rest.drop (rest.takeWhile isTokenChar).length with
     | [], _ => false
     | _ :: _, '%' :: _ => true
     | _, _ => false)
  | _ => false

def anyTail (p : List Char → Bool) : List Char → Bool
  | [] => p []
  | c :: cs => p (c :: cs) || anyTail p cs

/-- The templating-placeholder test of normalizeJob. -/
def hasPlaceholder (s : String) : Bool := anyTail placeholderAt s.data

/-- The fixed closed set of trailing department labels. -/
def depts : List String :=
  ["Engineering", "Marketing", "Sales", "Product", "Operations",
   "Finance", "People", "Legal", "Design", "Support"]

def lastIsWsC (l : List Char) : Bool :=
  match getLastQ l with
  | some c => isWsChar c
  | none => false

/-- Strip a trailing department word that is preceded by at least one
whitespace character (the first department-strip replace). -/
def stripDeptWs (t : String) : String :=
  let r := rtrimWsL t.data
  match depts.find? (fun d =>
      isSuffixL (lowerL d.data) (lowerL r) && lastIsWsC (dropRightL r d.length)) with
  | some d => strOf (trimList (dropRightL r d.length))
  | none => strOf (trimList t.data)

/-- Strip a trailing department word preceded by a hyphen with optional
whitespace around it (the second department-strip replace). -/
def stripDeptDash (t : String) : String :=
  let r := rtrimWsL t.data
  match depts.find? (fun d =>
      isSuffixL (lowerL d.data) (lowerL r) &&
      (match getLastQ (rtrimWsL (dropRightL r d.length)) with
       | some c => c == '-'
       | none => false)) with
  | some d => strOf (trimList (dropRightL (rtrimWsL (dropRightL r d.length)) 1))
  | none => strOf (trimList t.data)

/-- Strip a bare trailing department word at a word boundary, with no
whitespace allowed after it (the replace after the geo-hint extraction). -/
def stripDeptBare (t : String) : String :=
  match depts.find? (fun d =>
      isSuffixL (lowerL d.data) (lowerL t.data) &&
      (match getLastQ (dropRightL t.data d.length) with
       | some c => !(isWordChar c)
       | none => true)) with
  | some d => strOf (trimList (dropRightL t.data d.length))
  | none => strOf (trimList t.data)

def isKChar (c : Char) : Bool := c == 'k' || c == 'K'

def isDashChar (c : Char) : Bool := c == '–' || c == '-'

/-- Optional single whitespace, then a character satisfying q. -/
def chompOptWsThen (q : Char → Bool) : List Char → Option (List Char)
  | [] => none
  | c :: cs =>
    if q c then some cs
    else if isWsChar c then
      match cs with
      | d :: ds => if q d then some ds else none
      | [] => none
    else none

/-- Two or three digits, optional single whitespace, then k or K. -/
def chompNumK (l : List Char) : Option (List Char) :=
  let ds := l.takeWhile Char.isDigit
  if ds.length == 2 || ds.length == 3 then chompOptWsThen isKChar (l.drop ds.length)
  else none

def chompOptDollar : List Char → List Char
  | '$' :: cs => cs
  | l => l

def eatOptWsC : List Char → List Char
  | [] => []
  | c :: cs => if isWsChar c then cs else c :: cs

/-- The currency-range pattern of the first compensation-noise replace,
matched at this position. -/
def matchComp1At (l : List Char) : Bool :=
  match chompNumK (chompOptDollar l) with
  | none => false
  | some r1 =>
    match chompOptWsThen isDashChar r1 with
    | none => false
    | some r2 => (chompNumK (chompOptDollar (eatOptWsC r2))).isSome

/-- The pound-sign pattern of the second compensation-noise replace. -/
def matchComp2At (l : List Char) : Bool :=
  match l with
  | '£' :: cs =>
    (match eatOptWsC cs with
     | d :: _ => d.isDigit
     | [] => false)
  | _ => false

/-- Offers Equity at a word boundary, case-insensitive. -/
def matchComp3At (prev : Option Char) (l : List Char) : Bool :=
  boundaryOk prev && isPrefixL (lowerL "Offers Equity".data) (lowerL l)
    && wordAfterOk (l.drop 13)

/-- Full-time, Full time or Fulltime at word boundaries, case-insensitive. -/
def matchComp4At (prev : Option Char) (l : List Char) : Bool :=
  boundaryOk prev &&
    (match lowerL l with
     | 'f' :: 'u' :: 'l' :: 'l' :: rest =>
       (isPrefixL ("time".data) rest && wordAfterOk (rest.drop 4))
       || (match rest with
           | c :: rest2 =>
             (c == '-' || isWsChar c) && isPrefixL ("time".data) rest2
               && wordAfterOk (rest2.drop 4)
           | [] => false)
     | _ => false)

/-- The compensation, equity and employment-type noise strip of
normalizeJob: four to-end replaces then a trim. -/
def compStrip (t : String) : String :=
  let l1 := cutAtFirst matchComp1At t.data
  let l2 := cutAtFirst matchComp2At l1
  let l3 := cutAtFirstP matchComp3At none l2
  let l4 := cutAtFirstP matchComp4At none l3
  strOf (trimList l4)

def isGeoClass (c : Char) : Bool :=
  c.isAlpha || c == ' ' || c == '.' || c == '(' || c == ')'

def geoOk (rest : List Char) : Bool :=
  decide (3 ≤ rest.length) && decide (rest.length ≤ 40) && rest.all isGeoClass

/-- Greedy optional-whitespace with backtracking: k whitespace characters
first, fewer on failure. -/
def geoTryK : Nat → List Char → Option (List Char)
  | 0, cs => if geoOk cs then some cs else none
  | k + 1, cs =>
    let rest := cs.drop (k + 1)
    if geoOk rest then some rest else geoTryK k cs

/-- The hyphen-tail geo-hint regex: a hyphen, optional whitespace, then 3 to
40 characters of letters, spaces, dots and parentheses reaching the end. -/
def geoScan : List Char → Option (List Char)
  | [] => none
  | c :: cs =>
    if c == '-' then
      match geoTryK (cs.takeWhile isWsChar).length cs with
      | some r => some r
      | none => geoScan cs
    else geoScan cs

/-- The parenthesized-tail geo-hint regex: a parenthesized non-empty fragment
followed only by trailing whitespace. -/
def parenScan : List Char → Option (List Char)
  | [] => none
  | c :: cs =>
    if c == '(' then
      let content := cs.takeWhile (fun x => !(x == ')'))
      match cs.drop content.length with
      | ')' :: rest =>
        if !content.isEmpty && rest.all isWsChar then some content else parenScan cs
      | _ => parenScan cs
    else parenScan cs

/-- JavaScript falsy-or on strings. -/
def jsOrStr (a b : String) : String := if a == "" then b else a

def optCapTrim : Option (List Char) → String
  | some r => strOf (trimList r)
  | none => ""

/-- The geo-hint extraction of normalizeJob. -/
def geoHintOf (t : String) : String :=
  jsOrStr (optCapTrim (geoScan t.data)) (jsOrStr (optCapTrim (parenScan t.data)) "")

/-- The on-site work-mode pattern, applied to the lowered title. -/
def onsiteAt (prev : Option Char) (l : List Char) : Bool :=
  boundaryOk prev &&
    ((isPrefixL ("onsite".data) l && wordAfterOk (l.drop 6))
     || (isPrefixL ("on".data) l &&
         (match l.drop 2 with
          | c :: rest =>
            (c == '-' || isWsChar c) && isPrefixL ("site".data) rest
              && wordAfterOk (rest.drop 4)
          | [] => false)))

def isOnsiteTest (lower : List Char) : Bool := scanAux onsiteAt none lower

/-- A raw job record. The three identity fields are optional so that the
falsy-field fallbacks of the global dedup can be stated; every adapter in
the sources populates all three. -/
structure RawJob where
  portfolio : String
  company_name : String
  company_careers_url : String
  job_title : String
  job_location : String
  job_url : String
  source_type : Option String
  source_job_id : Option String
  job_key : Option String
  status : String
  last_seen_utc : String
  deriving DecidableEq, Repr

/-- The Text Normalizer: normalizeJob of the build pass, transcribed
step by step in source order. It is a total function into Option; a
rejection is the value none and no fault channel exists. -/
def normalizeJob (job : RawJob) : Option RawJob :=
  let title0 := cleanText job.job_title
  let location0 := cleanText job.job_location
  if title0 == "" || decide (title0.length < 3) then none
  else if !(looksLikeJobTitle title0) then none
  else if !(job.job_url == "") && urlJunkTest job.job_url then none
  else if hasPlaceholder title0 then none
  else
    let t1 := trimStr (takeUntilSub title0 "\n")
    let t2 := trimStr (takeUntilSub t1 "Responsibilities")
    let t3 := trimStr (takeUntilSub t2 "Description")
    let t4 := trimStr (takeUntilSub t3 "About the role")
    let t5 :=
      if decide (t4.length > 90) then
        trimStr (takeUntilSub (takeUntilSub (takeUntilSub t4 " — ") " - ") " | ")
      else t4
    let t6 := stripDeptWs t5
    let t7 := stripDeptDash t6
    let loc1 :=
      if containsWord (lowerL "forward deployed".data) (lowerL location0.data) then
        "Not listed"
      else location0
    let lowerT := lowerStr t7
    let isRemote := containsWord ("remote".data) lowerT.data
    let isHybrid := containsWord ("hybrid".data) lowerT.data
    let isOnsite := isOnsiteTest lowerT.data
    let t8 := if containsSub t7 "•" then trimStr (takeUntilSub t7 "•") else t7
    let t9 := compStrip t8
    let geoHint := geoHintOf t9
    let t10 := stripDeptBare t9
    let loc2 :=
      if loc1 == "" || lowerStr loc1 == "not listed" then
        if isRemote && !(geoHint == "") then "Remote — " ++ geoHint
        else if isRemote then "Remote"
        else if isHybrid && !(geoHint == "") then "Hybrid — " ++ geoHint
        else if isHybrid then "Hybrid"
        else if isOnsite && !(geoHint == "") then geoHint
        else if isOnsite then "On-site"
        else if !(geoHint == "") then geoHint
        else loc1
      else
        if isRemote && !(containsSub (lowerStr loc1) "remote") then "Remote — " ++ loc1
        else loc1
    some { job with job_title := t10,
                    job_location := if loc2 == "" then "Not listed" else loc2 }

-- ------------------------------------------------------------------
-- Build pass: accept and reject routing, company summary
-- ------------------------------------------------------------------

/-- The main loop of the build pass over the raw dataset: an accepted record
goes to the cleaned list, a rejected one goes to the rejected list as the
original record. -/
def buildSplit (raw : List RawJob) : List RawJob × List RawJob :=
  raw.foldl (fun acc j =>
    match normalizeJob j with
    | some nj => (acc.1 ++ [nj], acc.2)
    | none => (acc.1, acc.2 ++ [j])) ([], [])

structure Company where
  company_name : String
  careers_url : String
  deriving DecidableEq, Repr

structure CompanySummary where
  portfolio : String
  company_name : String
  company_careers_url : String
  open_roles : Nat
  deriving DecidableEq, Repr

/-- The byCompany map of the build pass, modelled by its lookup function;
the JavaScript map answers through get-or-zero, which the zero default
models, and the initial per-company zero entries only affect iteration
order, which is never observed. -/
def byCompanyCounts (cleaned : List RawJob) : String → Nat :=
  cleaned.foldl
    (fun m j => fun n => if n == j.company_name then m j.company_name + 1 else m n)
    (fun _ => 0)

/-- The company summary of the build pass: one entry mapped from every
roster company. -/
def companySummary (companies : List Company) (cleaned : List RawJob) : List CompanySummary :=
  companies.map (fun c =>
    { portfolio := "Active Capital", company_name := c.company_name,
      company_careers_url := c.careers_url,
      open_roles := byCompanyCounts cleaned c.company_name })

-- ------------------------------------------------------------------
-- URLs and the static-board adapters
-- ------------------------------------------------------------------

/-- A parsed URL; origin is scheme, host and port. -/
structure Url where
  scheme : String
  host : String
  port : String
  pathname : String
  deriving DecidableEq, Repr

/-- The origin string of a parsed URL. -/
def Url.origin (u : Url) : String :=
  u.scheme ++ "//" ++ u.host ++ (if u.port == "" then "" else ":" ++ u.port)

/-- sameOriginOnly of the scraper: parse both strings, compare origins;
any parse failure answers false. -/
def sameOriginOnly (parseUrl : String → Option Url) (baseUrl url : String) : Bool :=
  match parseUrl baseUrl, parseUrl url with
  | some b, some u => b.origin == u.origin
  | _, _ => false

/-- An anchor element of a fetched page: href attribute and visible text. -/
structure Anchor where
  href : String
  text : String
  deriving DecidableEq, Repr

/-- The record a raw job shares across adapters. -/
def mkAdapterJob (company careersUrl title url sourceType jobId now : String) : RawJob :=
  { portfolio := "Active Capital", company_name := company,
    company_careers_url := careersUrl, job_title := title,
    job_location := "Not listed", job_url := url,
    source_type := some sourceType, source_job_id := some jobId,
    job_key := some (sourceType ++ ":" ++ jobId), status := "open",
    last_seen_utc := now }

/-- First-key-seen-wins filter over a list of jobs, the Set-based de-dupe
filter the adapters and the orchestrator use. -/
def dedupByGo (key : RawJob → String) (seen : List String) : List RawJob → List RawJob
  | [] => []
  | j :: js =>
    if seen.contains (key j) then dedupByGo key seen js
    else j :: dedupByGo key (key j :: seen) js

/-- Per-anchor processing of scrapeBreezy. -/
def breezyAnchorJob (parseUrl : String → Option Url)
    (resolveUrl : String → String → Option String) (hash : String → String)
    (company careersUrl now : String) (a : Anchor) : Option RawJob :=
  if !(containsSub a.href "/p/") then none
  else
    match resolveUrl careersUrl a.href with
    | none => none
    | some url =>
      if !(sameOriginOnly parseUrl careersUrl url) then none
      else
        let title := cleanText a.text
        if title == "" || lowerStr title == "apply" then none
        else some (mkAdapterJob company careersUrl title url "breezy" (hash url) now)

/-- scrapeBreezy on an already-fetched page given as its anchors. -/
def scrapeBreezy (parseUrl : String → Option Url)
    (resolveUrl : String → String → Option String) (hash : String → String)
    (company careersUrl now : String) (anchors : List Anchor) : List RawJob :=
  dedupByGo (fun j => j.job_url) []
    (anchors.filterMap (breezyAnchorJob parseUrl resolveUrl hash company careersUrl now))

/-- Per-anchor processing of scrapeRippling. -/
def ripplingAnchorJob (parseUrl : String → Option Url)
    (resolveUrl : String → String → Option String) (hash : String → String)
    (company careersUrl now : String) (a : Anchor) : Option RawJob :=
  if !(containsSub a.href "/jobs/") then none
  else
    match resolveUrl careersUrl a.href with
    | none => none
    | some url =>
      if !(sameOriginOnly parseUrl careersUrl url) then none
      else
        let title := cleanText a.text
        if title == "" then none
        else some (mkAdapterJob company careersUrl title url "rippling" (hash url) now)

/-- scrapeRippling on an already-fetched page given as its anchors. -/
def scrapeRippling (parseUrl : String → Option Url)
    (resolveUrl : String → String → Option String) (hash : String → String)
    (company careersUrl now : String) (anchors : List Anchor) : List RawJob :=
  dedupByGo (fun j => j.job_url) []
    (anchors.filterMap (ripplingAnchorJob parseUrl resolveUrl hash company careersUrl now))

/-- The job-path regex of scrapeBuiltIn on the resolved URL. -/
def builtInPathTest (url : String) : Bool :=
  containsSub (lowerStr url) "/job/" || containsSub (lowerStr url) "/jobs/"

/-- Per-anchor processing of scrapeBuiltIn, which resolves before filtering. -/
def builtInAnchorJob (parseUrl : String → Option Url)
    (resolveUrl : String → String → Option String) (hash : String → String)
    (company careersUrl now : String) (a : Anchor) : Option RawJob :=
  match resolveUrl careersUrl a.href with
  | none => none
  | some url =>
    if !(sameOriginOnly parseUrl careersUrl url) then none
    else if !(builtInPathTest url) then none
    else
      let title := cleanText a.text
      if title == "" || decide (title.length < 3) then none
      else some (mkAdapterJob company careersUrl title url "built_in" (hash url) now)

/-- scrapeBuiltIn on an already-fetched page given as its anchors. -/
def scrapeBuiltIn (parseUrl : String → Option Url)
    (resolveUrl : String → String → Option String) (hash : String → String)
    (company careersUrl now : String) (anchors : List Anchor) : List RawJob :=
  dedupByGo (fun j => j.job_url) []
    (anchors.filterMap (builtInAnchorJob parseUrl resolveUrl hash company careersUrl now))

-- ------------------------------------------------------------------
-- Generic-html fallback adapter (scrapeCustomHtml)
-- ------------------------------------------------------------------

def allowPathTest (p : String) : Bool :=
  let lp := lowerStr p
  containsSub lp "/job/" || containsSub lp "/jobs/" || containsSub lp "/positions/" ||
  containsSub lp "/openings/" || containsSub lp "/careers/" || endsWithStr lp "/careers"

def blockPathTest (url : String) : Bool :=
  let lu := lowerStr url
  containsSub lu "privacy" || containsSub lu "security" || containsSub lu "disclosure" ||
  containsSub lu "login" || containsSub lu "signup" || containsSub lu "terms" ||
  containsSub lu "cookie" || containsSub lu "press" || containsSub lu "blog" ||
  containsSub lu "about" || containsSub lu "product" || containsSub lu "pricing"

/-- Strip trailing slashes, the self-link comparison helper. -/
def stripTrailSlash (p : String) : String :=
  strOf ((p.data.reverse.dropWhile (fun c => c == '/')).reverse)

/-- Split into maximal non-whitespace runs, the model of the split on a
whitespace regex applied to the already-trimmed titles of this adapter. -/
def wordsGo (cur : List Char) (acc : List (List Char)) : List Char → List (List Char)
  | [] => if cur.isEmpty then acc.reverse else (cur.reverse :: acc).reverse
  | c :: cs =>
    if isWsChar c then
      if cur.isEmpty then wordsGo [] acc cs else wordsGo [] (cur.reverse :: acc) cs
    else wordsGo (c :: cur) acc cs

def wordsOf (s : String) : List String := (wordsGo [] [] s.data).map strOf

/-- The glued-description repair: insert a space between a lowercase letter
and a following word-boundary As, globally. -/
def insertAsGo : List Char → List Char
  | a :: 'A' :: 's' :: rest =>
    if a.isLower && (match rest with | [] => true | c :: _ => !(isWordChar c)) then
      a :: ' ' :: 'A' :: 's' :: insertAsGo rest
    else a :: insertAsGo ('A' :: 's' :: rest)
  | a :: rest => a :: insertAsGo rest
  | [] => []

/-- The As-an, As-a, As-our phrase at a word boundary, case-insensitive. -/
def asPhraseAt (prev : Option Char) (l : List Char) : Bool :=
  boundaryOk prev &&
    (match lowerL l with
     | 'a' :: 's' :: ' ' :: rest =>
       (isPrefixL ("an".data) rest && wordAfterOk (rest.drop 2))
       || (isPrefixL ("a".data) rest && wordAfterOk (rest.drop 1))
       || (isPrefixL ("our".data) rest && wordAfterOk (rest.drop 3))
     | _ => false)

/-- The Austin-comma-or phrase at a word boundary, case-insensitive. -/
def austinOrAt (prev : Option Char) (l : List Char) : Bool :=
  boundaryOk prev && isPrefixL (lowerL "Austin, or".data) (lowerL l)
    && wordAfterOk (l.drop 10)

/-- The title-cleanup chain of scrapeCustomHtml. -/
def customTitleClean (t0 : String) : String :=
  let a := strOf (insertAsGo t0.data)
  let b := strOf (trimList (takeUntilL ("—".data)
    (takeUntilL ("|".data) (takeUntilL ("•".data)
      (cutAtFirstP austinOrAt none (cutAtFirstP asPhraseAt none a.data))))))
  let c :=
    if decide (b.length > 80) then
      strOf (trimList (b.data.takeWhile (fun x => !(x == '.' || x == '!' || x == '?'))))
    else b
  if decide (c.length > 80) then trimStr (String.intercalate " " ((wordsOf c).take 10))
  else c

/-- Per-anchor processing of scrapeCustomHtml. The inner URL re-parse
cannot fail on any anchor that passed sameOriginOnly, so answering none
for it is unreachable there, where the source would throw. -/
def customAnchorJob (parseUrl : String → Option Url)
    (resolveUrl : String → String → Option String) (hash : String → String)
    (company careersUrl now : String) (cu : Url) (a : Anchor) : Option RawJob :=
  let href := trimStr a.href
  if href == "" || startsWithStr href "#" then none
  else
    match resolveUrl careersUrl href with
    | none => none
    | some url =>
      if !(sameOriginOnly parseUrl careersUrl url) then none
      else if blockPathTest url then none
      else
        match parseUrl url with
        | none => none
        | some u =>
          if !(allowPathTest u.pathname) then none
          else if stripTrailSlash u.pathname == stripTrailSlash cu.pathname then none
          else
            let title := customTitleClean (cleanText a.text)
            if title == "" || decide (title.length < 6) then none
            else if decide ((wordsOf title).length < 2) then none
            else some (mkAdapterJob company careersUrl title url "custom_html" (hash url) now)

/-- scrapeCustomHtml on an already-fetched page given as its anchors; none
models the throw when the careers URL itself does not parse. The seen set
this adapter declares in the source is never used, so, unlike the other
scrapers, no de-dupe filter runs on its output. -/
def scrapeCustomHtml (parseUrl : String → Option Url)
    (resolveUrl : String → String → Option String) (hash : String → String)
    (company careersUrl now : String) (anchors : List Anchor) : Option (List RawJob) :=
  match parseUrl careersUrl with
  | none => none
  | some cu =>
    some (anchors.filterMap (customAnchorJob parseUrl resolveUrl hash company careersUrl now cu))

-- ------------------------------------------------------------------
-- Provider classifier and Orchestrator
-- ------------------------------------------------------------------

def knownSources : List String :=
  ["greenhouse", "ashby", "workday", "rippling", "breezy", "built_in", "scalis", "custom_html"]

/-- detectSource of the scraper: ordered case-insensitive substring checks
with a generic fallback. -/
def detectSource (url : String) : String :=
  let u := lowerStr url
  if containsSub u "greenhouse.io" then "greenhouse"
  else if containsSub u "ashbyhq.com" then "ashby"
  else if containsSub u "myworkday" || containsSub u "workday" then "workday"
  else if containsSub u "ats.rippling.com" then "rippling"
  else if containsSub u "breezy.hr" then "breezy"
  else if containsSub u "builtinaustin.com" then "built_in"
  else if containsSub u "scalis.ai" then "scalis"
  else if containsSub u "notion.site" then "custom_html"
  else "custom_html"

structure CoverageRecord where
  portfolio : String
  company_name : String
  company_careers_url : String
  source_type : String
  status : String
  open_roles_raw : Nat
  error : String
  last_checked_utc : String
  deriving DecidableEq, Repr

/-- The per-company failure boundary: a thrown adapter error becomes status
failed with its message, a normal return becomes status ok. -/
def caughtScrape : Except String (List RawJob) → String × String × List RawJob
  | Except.ok js => ("ok", "", js)
  | Except.error e => ("failed", e, [])

/-- The adapter dispatch chain of the main loop; adapters abstracts the
eight network-bound scrapers as fallible job-list producers. -/
def runScrape (adapters : String → Company → Except String (List RawJob))
    (source : String) (c : Company) : String × String × List RawJob :=
  if source == "greenhouse" then caughtScrape (adapters "greenhouse" c)
  else if source == "rippling" then caughtScrape (adapters "rippling" c)
  else if source == "breezy" then caughtScrape (adapters "breezy" c)
  else if source == "built_in" then caughtScrape (adapters "built_in" c)
  else if source == "ashby" then caughtScrape (adapters "ashby" c)
  else if source == "workday" then caughtScrape (adapters "workday" c)
  else if source == "scalis" then caughtScrape (adapters "scalis" c)
  else if source == "custom_html" then caughtScrape (adapters "custom_html" c)
  else ("unsupported", "", [])

/-- One iteration of the company loop: classify, dispatch inside the failure
boundary, downgrade ok with zero jobs to empty, emit the coverage record. -/
def processCompany (adapters : String → Company → Except String (List RawJob))
    (now : String) (c : Company) : CoverageRecord × List RawJob :=
  let source := detectSource c.careers_url
  let r := runScrape adapters source c
  let status := if r.1 == "ok" && r.2.2.isEmpty then "empty" else r.1
  ({ portfolio := "Active Capital", company_name := c.company_name,
     company_careers_url := c.careers_url, source_type := source, status := status,
     open_roles_raw := r.2.2.length, error := r.2.1, last_checked_utc := now },
   r.2.2)

/-- The company loop of the scraper main: accumulate raw jobs and coverage
records in roster order. -/
def orchestrate (adapters : String → Company → Except String (List RawJob))
    (now : String) (companies : List Company) : List RawJob × List CoverageRecord :=
  companies.foldl (fun acc c =>
    let pr := processCompany adapters now c
    (acc.1 ++ pr.2, acc.2 ++ [pr.1])) ([], [])

-- ------------------------------------------------------------------
-- Global dedup
-- ------------------------------------------------------------------

/-- JavaScript truthiness of a possibly absent string field. -/
def jsTruthy : Option String → Bool
  | none => false
  | some s => !(s == "")

/-- Template-literal rendering of a possibly absent string field. -/
def jsShow : Option String → String
  | none => "undefined"
  | some s => s

/-- The dedup key of the global pass, transcribing the or-chain of the
source: job_key when truthy, else the source_type colon source_job_id
template when truthy, else the digest of the job URL. -/
def dedupKey (hash : String → String) (j : RawJob) : String :=
  if jsTruthy j.job_key then jsShow j.job_key
  else
    let t := jsShow j.source_type ++ ":" ++ jsShow j.source_job_id
    if !(t == "") then t else hash j.job_url

/-- The global first-seen-wins dedup pass over the concatenated raw jobs. -/
def globalDedup (hash : String → String) (jobs : List RawJob) : List RawJob :=
  dedupByGo (dedupKey hash) [] jobs

-- ------------------------------------------------------------------
-- Whitespace shape of cleanText fixed points
-- ------------------------------------------------------------------

/-- The first character, when present, is not whitespace. -/
def noLeadWs : List Char → Bool
  | [] => true
  | c :: _ => !(isWsChar c)

def pairOkWs (a b : Char) : Bool := !(isWsChar a) || (a == ' ' && !(isWsChar b))

/-- Every whitespace character is a plain space and no two adjacent
characters are both whitespace. -/
def wellSpaced : List Char → Bool
  | [] => true
  | [c] => !(isWsChar c) || c == ' '
  | a :: b :: rest => pairOkWs a b && wellSpaced (b :: rest)

-- ------------------------------------------------------------------
-- Concrete inputs used by the claim-level statements
-- ------------------------------------------------------------------

/-- A record whose three identity fields are all absent, as the global
dedup fallback chain contemplates. -/
def c5rec : RawJob :=
  { portfolio := "Active Capital", company_name := "X",
    company_careers_url := "https://x.example/careers", job_title := "Engineer",
    job_location := "Not listed", job_url := "https://x.example/jobs/1",
    source_type := none, source_job_id := none, job_key := none,
    status := "open", last_seen_utc := "now" }

/-- A raw record with a templating-placeholder title. -/
def tmplRec : RawJob :=
  { portfolio := "Active Capital", company_name := "X",
    company_careers_url := "https://x.example/careers",
    job_title := "%TEMPLATE_TITLE%", job_location := "Remote",
    job_url := "https://x.example/p/1", source_type := some "breezy",
    source_job_id := some "1", job_key := some "breezy:1",
    status := "open", last_seen_utc := "now" }

/-- The record of the remote-suffix scenario: title Account Exec - Remote
with a missing location. -/
def c7rec : RawJob :=
  { portfolio := "Active Capital", company_name := "X",
    company_careers_url := "https://x.example/careers",
    job_title := "Account Exec - Remote", job_location := "",
    job_url := "https://x.example/jobs/2", source_type := some "ashby",
    source_job_id := some "2", job_key := some "ashby:2",
    status := "open", last_seen_utc := "now" }

/-- A record whose title is the single department word Design. -/
def designRec : RawJob :=
  { portfolio := "Active Capital", company_name := "X",
    company_careers_url := "https://x.example/careers",
    job_title := "Design", job_location := "",
    job_url := "https://x.example/jobs/3", source_type := some "ashby",
    source_job_id := some "3", job_key := some "ashby:3",
    status := "open", last_seen_utc := "now" }

/-- An already-clean record: noise-free title and explicit location. -/
def cleanRec : RawJob :=
  { portfolio := "Active Capital", company_name := "X",
    company_careers_url := "https://x.example/careers",
    job_title := "Software Engineer II", job_location := "Austin, TX",
    job_url := "https://x.example/jobs/4", source_type := some "greenhouse",
    source_job_id := some "4", job_key := some "greenhouse:4",
    status := "open", last_seen_utc := "now" }

def jobA : RawJob :=
  { portfolio := "Active Capital", company_name := "A",
    company_careers_url := "https://a.example/careers", job_title := "T1",
    job_location := "Remote", job_url := "https://a.example/jobs/1",
    source_type := some "greenhouse", source_job_id := some "1",
    job_key := some "greenhouse:1", status := "open", last_seen_utc := "now" }

def jobB : RawJob :=
  { portfolio := "Active Capital", company_name := "A",
    company_careers_url := "https://a.example/careers", job_title := "T2",
    job_location := "Remote", job_url := "https://a.example/jobs/2",
    source_type := some "greenhouse", source_job_id := some "2",
    job_key := some "greenhouse:2", status := "open", last_seen_utc := "now" }

/-- A later record carrying the same job_key as jobA. -/
def jobA2 : RawJob :=
  { portfolio := "Active Capital", company_name := "A",
    company_careers_url := "https://a.example/careers", job_title := "T1 again",
    job_location := "Hybrid", job_url := "https://a.example/jobs/1b",
    source_type := some "greenhouse", source_job_id := some "1",
    job_key := some "greenhouse:1", status := "open", last_seen_utc := "now" }

def dupJobs : List RawJob := [jobA, jobB, jobA2]

/-- A toy URL parser recognizing the two concrete pages of the witnesses. -/
def witParse : String → Option Url := fun s =>
  if s == "https://good.example/careers" then
    some { scheme := "https:", host := "good.example", port := "", pathname := "/careers" }
  else if s == "https://good.example/jobs/senior-engineer" then
    some { scheme := "https:", host := "good.example", port := "",
           pathname := "/jobs/senior-engineer" }
  else if s == "https://evil.example/p/1" then
    some { scheme := "https:", host := "evil.example", port := "", pathname := "/p/1" }
  else none

/-- A toy resolver returning absolute hrefs unchanged. -/
def witResolveId : String → String → Option String := fun _ href => some href

/-- A toy resolver joining relative hrefs onto the good origin. -/
def witResolveJoin : String → String → Option String := fun _ href =>
  some ("https://good.example" ++ href)

/-- A cross-origin anchor with job-looking href and text. -/
def evilAnchor : Anchor := { href := "https://evil.example/p/1", text := "Great Engineer Role" }

def c6Anchor : Anchor := { href := "/jobs/senior-engineer", text := "Senior Engineer" }

/-- The record scrapeCustomHtml builds from c6Anchor. -/
def c6Job : RawJob :=
  mkAdapterJob "X" "https://good.example/careers" "Senior Engineer"
    "https://good.example/jobs/senior-engineer" "custom_html" "h0" "now"

def witCompany : Company :=
  { company_name := "A", careers_url := "https://x.example/careers" }

/-- Adapters that always return the empty job list. -/
def witAdapters : String → Company → Except String (List RawJob) := fun _ _ => Except.ok []

-- ==================================================================
-- Theorems
-- ==================================================================

theorem strOf_data (s : String) : strOf s.data = s := rfl

theorem contains_cons_str (a : String) (s : List String) (k : String) :
    (a :: s).contains k = ((k == a) || s.contains k) := by
  cases h : k == a <;> simp [List.contains, List.elem, h]

theorem mapCongrOn {α β : Type} (l : List α) (f g : α → β)
    (h : ∀ x ∈ l, f x = g x) : l.map f = l.map g := by
  induction l with
  | nil => rfl
  | cons a t ih =>
    simp only [List.map_cons]
    rw [h a (by simp), ih (fun x hx => h x (by simp [hx]))]

theorem find?_congr_on {α : Type} (l : List α) (p q : α → Bool)
    (h : ∀ x ∈ l, p x = q x) : l.find? p = l.find? q := by
  induction l with
  | nil => rfl
  | cons a t ih =>
    have ha : p a = q a := h a (by simp)
    cases hpa : p a with
    | true =>
      rw [List.find?_cons_of_pos _ hpa, List.find?_cons_of_pos _ (ha ▸ hpa)]
    | false =>
      rw [List.find?_cons_of_neg _ (by simp [hpa]),
          List.find?_cons_of_neg _ (by simp [← ha, hpa])]
      exact ih (fun x hx => h x (by simp [hx]))

theorem dedupByGo_sublist (key : RawJob → String) (l : List RawJob) :
    ∀ seen : List String, (dedupByGo key seen l).Sublist l := by
  induction l with
  | nil => intro seen; simp [dedupByGo]
  | cons x xs ih =>
    intro seen
    cases h : seen.contains (key x) with
    | true =>
      rw [dedupByGo, h, if_pos rfl]
      exact (ih seen).cons x
    | false =>
      rw [dedupByGo, h, if_neg Bool.false_ne_true]
      exact (ih _).cons₂ x

theorem dedupByGo_not_seen (key : RawJob → String) (l : List RawJob) :
    ∀ (seen : List String) (j : RawJob), j ∈ dedupByGo key seen l →
      seen.contains (key j) = false := by
  induction l with
  | nil => intro seen j h; simp [dedupByGo] at h
  | cons x xs ih =>
    intro seen j hmem
    cases h : seen.contains (key x) with
    | true =>
      rw [dedupByGo, h, if_pos rfl] at hmem
      exact ih seen j hmem
    | false =>
      rw [dedupByGo, h, if_neg Bool.false_ne_true] at hmem
      rcases List.mem_cons.mp hmem with rfl | hmem
      · exact h
      · have := ih (key x :: seen) j hmem
        rw [contains_cons_str] at this
        exact (Bool.or_eq_false_iff.mp this).2

theorem dedupByGo_keys_nodup (key : RawJob → String) (l : List RawJob) :
    ∀ seen : List String, ((dedupByGo key seen l).map key).Nodup := by
  induction l with
  | nil => intro seen; simp [dedupByGo]
  | cons x xs ih =>
    intro seen
    cases h : seen.contains (key x) with
    | true =>
      rw [dedupByGo, h, if_pos rfl]
      exact ih seen
    | false =>
      rw [dedupByGo, h, if_neg Bool.false_ne_true]
      simp only [List.map_cons, List.nodup_cons]
      refine ⟨?_, ih _⟩
      intro hmem
      obtain ⟨j, hj, hkj⟩ := List.mem_map.mp hmem
      have hns := dedupByGo_not_seen key xs (key x :: seen) j hj
      rw [contains_cons_str, hkj] at hns
      simp at hns

theorem dedupByGo_first (key : RawJob → String) (l : List RawJob) :
    ∀ (seen : List String) (j : RawJob), j ∈ dedupByGo key seen l →
      l.find? (fun x => key x == key j) = some j := by
  induction l with
  | nil => intro seen j h; simp [dedupByGo] at h
  | cons x xs ih =>
    intro seen j hmem
    cases h : seen.contains (key x) with
    | true =>
      rw [dedupByGo, h, if_pos rfl] at hmem
      have hne : (key x == key j) = false := by
        rw [beq_eq_false_iff_ne]
        intro hxj
        have := dedupByGo_not_seen key xs seen j hmem
        rw [← hxj] at this
        rw [this] at h
        exact Bool.false_ne_true h
      rw [List.find?_cons_of_neg _ (by simp [hne])]
      exact ih seen j hmem
    | false =>
      rw [dedupByGo, h, if_neg Bool.false_ne_true] at hmem
      rcases List.mem_cons.mp hmem with rfl | hmem
      · exact List.find?_cons_of_pos _ (by simp)
      · have hns := dedupByGo_not_seen key xs (key x :: seen) j hmem
        rw [contains_cons_str] at hns
        have hjx := (Bool.or_eq_false_iff.mp hns).1
        have hne : (key x == key j) = false := by
          rw [beq_eq_false_iff_ne]
          exact fun hxj => (beq_eq_false_iff_ne.mp hjx) hxj.symm
        rw [List.find?_cons_of_neg _ (by simp [hne])]
        exact ih _ j hmem

/-- C1: on any raw-job list whose records carry a truthy job_key (as every
adapter-built record does), the global dedup pass returns a sublist of the
input whose job_key values are pairwise distinct, and the record kept for
each key is the first record of the input holding that key; later
duplicates are dropped by the total dedup function, which has no error
channel. -/
theorem global_dedup_first_wins (hash : String → String) (jobs : List RawJob)
    (hkeys : ∀ j ∈ jobs, jsTruthy j.job_key = true) :
    (globalDedup hash jobs).Sublist jobs
    ∧ ((globalDedup hash jobs).map (fun j => jsShow j.job_key)).Nodup
    ∧ ∀ j ∈ globalDedup hash jobs,
        jobs.find? (fun x => jsShow x.job_key == jsShow j.job_key) = some j := by
  have hsub : (globalDedup hash jobs).Sublist jobs :=
    dedupByGo_sublist (dedupKey hash) jobs []
  have hkey_eq : ∀ j ∈ jobs, dedupKey hash j = jsShow j.job_key := by
    intro j hj
    simp [dedupKey, hkeys j hj]
  refine ⟨hsub, ?_, ?_⟩
  · have hnodup := dedupByGo_keys_nodup (dedupKey hash) jobs []
    have hmapeq : (globalDedup hash jobs).map (dedupKey hash)
        = (globalDedup hash jobs).map (fun j => jsShow j.job_key) :=
      mapCongrOn _ _ _ (fun j hj => hkey_eq j (hsub.subset hj))
    rw [← hmapeq]
    exact hnodup
  · intro j hj
    have hfind := dedupByGo_first (dedupKey hash) jobs [] j hj
    have hcongr : jobs.find? (fun x => dedupKey hash x == dedupKey hash j)
        = jobs.find? (fun x => jsShow x.job_key == jsShow j.job_key) := by
      apply find?_congr_on
      intro x hx
      rw [hkey_eq x hx, hkey_eq j (hsub.subset hj)]
    rw [← hcongr]
    exact hfind

/-- C1 witness: the theorem applied to a concrete three-record list whose
first and third records share a job_key. -/
theorem global_dedup_first_wins_app :
    (globalDedup (fun _ => "h0") dupJobs).Sublist dupJobs
    ∧ ((globalDedup (fun _ => "h0") dupJobs).map (fun j => jsShow j.job_key)).Nodup
    ∧ ∀ j ∈ globalDedup (fun _ => "h0") dupJobs,
        dupJobs.find? (fun x => jsShow x.job_key == jsShow j.job_key) = some j :=
  global_dedup_first_wins (fun _ => "h0") dupJobs (by decide)

/-- C5 counterexample: a record with all three identity fields absent gets
dedup key undefined:undefined, not the digest of its job URL, whatever the
digest function answers. -/
theorem dedup_digest_fallback_unreachable :
    dedupKey (fun _ => "digest0") c5rec = "undefined:undefined"
    ∧ (fun _ : String => "digest0") c5rec.job_url = "digest0"
    ∧ ("undefined:undefined" : String) ≠ "digest0" :=
  ⟨by decide, rfl, by decide⟩

/-- C5 amended: when job_key is falsy the key is always the rendered
source_type colon source_job_id template, which is never the empty string,
so the digest-of-URL fallback is dead code. -/
theorem dedup_key_template_of_absent (hash : String → String) (j : RawJob)
    (h : jsTruthy j.job_key = false) :
    dedupKey hash j = jsShow j.source_type ++ ":" ++ jsShow j.source_job_id := by
  have hne : (jsShow j.source_type ++ ":" ++ jsShow j.source_job_id) ≠ "" := by
    intro he
    have hd := congrArg String.data he
    rw [String.data_append, String.data_append] at hd
    rcases List.append_eq_nil.mp hd with ⟨h1, _⟩
    rcases List.append_eq_nil.mp h1 with ⟨_, h3⟩
    exact absurd h3 (by decide)
  simp [dedupKey, h, beq_eq_false_iff_ne.mpr hne]

/-- C5 amended witness: the key of the all-absent record. -/
theorem dedup_key_template_of_absent_app :
    dedupKey (fun _ => "h0") c5rec = "undefined:undefined" := by
  rw [dedup_key_template_of_absent (fun _ => "h0") c5rec (by decide)]
  decide

theorem buildSplit_loop (raw : List RawJob) :
    ∀ acc : List RawJob × List RawJob,
      (raw.foldl (fun acc j =>
        match normalizeJob j with
        | some nj => (acc.1 ++ [nj], acc.2)
        | none => (acc.1, acc.2 ++ [j])) acc).2
      = acc.2 ++ raw.filter (fun j => (normalizeJob j).isNone) := by
  induction raw with
  | nil => intro acc; simp
  | cons j js ih =>
    intro acc
    simp only [List.foldl_cons, List.filter_cons]
    cases hn : normalizeJob j with
    | some nj => simp [hn, ih]
    | none => simp [hn, ih]

/-- C4: the normalizer is a total function into Option, so no fault is ever
raised; the build pass routes to the rejected dataset exactly the original
records the normalizer answered none for, untransformed; in particular the
record titled with the placeholder %TEMPLATE_TITLE% is rejected and appears
verbatim. -/
theorem normalizer_total_rejects_verbatim (raw : List RawJob) :
    (buildSplit raw).2 = raw.filter (fun j => (normalizeJob j).isNone)
    ∧ normalizeJob tmplRec = none
    ∧ (buildSplit [tmplRec]).2 = [tmplRec] := by
  refine ⟨?_, by decide, by decide⟩
  simpa [buildSplit] using buildSplit_loop raw ([], [])

/-- C7 counterexample: on title Account Exec - Remote with missing location
the normalizer accepts the record, but the output title still carries the
dash-Remote suffix instead of having it stripped. -/
theorem remote_suffix_not_stripped :
    normalizeJob c7rec = some { c7rec with job_location := "Remote — Remote" }
    ∧ ({ c7rec with job_location := "Remote — Remote" } : RawJob).job_title
        = "Account Exec - Remote"
    ∧ ("Account Exec - Remote" : String) ≠ "Account Exec" :=
  ⟨by decide, by decide, by decide⟩

/-- C7 amended: the record is accepted; the geo-hint regex captures Remote
itself, so the synthesized location is Remote em-dash Remote, and the title
is left unchanged because only department words are stripped as suffixes. -/
theorem remote_title_kept_location_doubled :
    normalizeJob c7rec = some { c7rec with job_location := "Remote — Remote" }
    ∧ geoHintOf "Account Exec - Remote" = "Remote" :=
  ⟨by decide, by decide⟩

theorem get_of_eq_list {α : Type} {l1 l2 : List α} (h : l1 = l2) (i : Nat)
    (h1 : i < l1.length) :
    l1.get ⟨i, h1⟩ = l2.get ⟨i, h ▸ h1⟩ := by
  subst h
  rfl

theorem orchestrate_loop (adapters : String → Company → Except String (List RawJob))
    (now : String) (cs : List Company) :
    ∀ acc : List RawJob × List CoverageRecord,
      (cs.foldl (fun acc c =>
        let pr := processCompany adapters now c
        (acc.1 ++ pr.2, acc.2 ++ [pr.1])) acc).2
      = acc.2 ++ cs.map (fun c => (processCompany adapters now c).1) := by
  induction cs with
  | nil => intro acc; simp
  | cons c cs ih =>
    intro acc
    simp only [List.foldl_cons, List.map_cons]
    rw [ih]
    simp

theorem orchestrate_coverage (adapters : String → Company → Except String (List RawJob))
    (now : String) (companies : List Company) :
    (orchestrate adapters now companies).2
      = companies.map (fun c => (processCompany adapters now c).1) := by
  simpa [orchestrate] using orchestrate_loop adapters now companies ([], [])

theorem get_map_at {α β : Type} (f : α → β) (l : List α) (i : Nat)
    (h1 : i < l.length) (h2 : i < (l.map f).length) :
    (l.map f).get ⟨i, h2⟩ = f (l.get ⟨i, h1⟩) := by
  induction l generalizing i with
  | nil => cases h1
  | cons x t ih =>
    cases i with
    | zero => rfl
    | succ n =>
      exact ih n (Nat.lt_of_succ_lt_succ h1) (by simpa using Nat.lt_of_succ_lt_succ h2)

theorem byCompanyCounts_loop (l : List RawJob) :
    ∀ (m : String → Nat) (n : String),
      (l.foldl (fun m j => fun x =>
        if x == j.company_name then m j.company_name + 1 else m x) m) n
      = m n + l.countP (fun j => j.company_name == n) := by
  induction l with
  | nil => intro m n; simp
  | cons j js ih =>
    intro m n
    simp only [List.foldl_cons, List.countP_cons]
    rw [ih]
    by_cases h : j.company_name = n
    · subst h
      simp only [beq_self_eq_true, if_pos rfl, if_true]
      omega
    · have h1 : (n == j.company_name) = false := beq_eq_false_iff_ne.mpr (Ne.symm h)
      have h2 : (j.company_name == n) = false := beq_eq_false_iff_ne.mpr h
      simp [h1, h2]

theorem byCompanyCounts_eq (cleaned : List RawJob) (n : String) :
    byCompanyCounts cleaned n = cleaned.countP (fun j => j.company_name == n) := by
  simpa [byCompanyCounts] using byCompanyCounts_loop cleaned (fun _ => 0) n

/-- C2: the coverage list holds exactly one record per roster company, in
roster order and regardless of the adapter outcome, and the company summary
of the build pass holds exactly one entry per roster company, whose
open_roles is the count of clean jobs naming that company, hence zero when
no clean job matches. -/
theorem coverage_and_summary_per_company
    (adapters : String → Company → Except String (List RawJob)) (now : String)
    (companies : List Company) (cleaned : List RawJob) :
    (orchestrate adapters now companies).2.length = companies.length
    ∧ (∀ (i : Nat) (hi : i < companies.length)
         (hc : i < (orchestrate adapters now companies).2.length),
         ((orchestrate adapters now companies).2.get ⟨i, hc⟩).company_name
           = (companies.get ⟨i, hi⟩).company_name)
    ∧ (companySummary companies cleaned).length = companies.length
    ∧ (∀ (i : Nat) (hi : i < companies.length)
         (hs : i < (companySummary companies cleaned).length),
         ((companySummary companies cleaned).get ⟨i, hs⟩).company_name
           = (companies.get ⟨i, hi⟩).company_name
         ∧ ((companySummary companies cleaned).get ⟨i, hs⟩).open_roles
           = cleaned.countP
               (fun j => j.company_name == (companies.get ⟨i, hi⟩).company_name))
    ∧ (∀ c ∈ companies, (∀ j ∈ cleaned, j.company_name ≠ c.company_name) →
         ∃ s ∈ companySummary companies cleaned,
           s.company_name = c.company_name ∧ s.open_roles = 0) := by
  refine ⟨?_, ?_, ?_, ?_, ?_⟩
  · rw [orchestrate_coverage]
    exact List.length_map companies _
  · intro i hi hc
    have hrw := orchestrate_coverage adapters now companies
    rw [get_of_eq_list hrw i hc, get_map_at _ companies i hi]
    rfl
  · simp [companySummary]
  · intro i hi hs
    simp only [companySummary] at hs ⊢
    rw [get_map_at _ companies i hi hs]
    exact ⟨rfl, byCompanyCounts_eq cleaned _⟩
  · intro c hc hnone
    refine ⟨{ portfolio := "Active Capital", company_name := c.company_name,
              company_careers_url := c.careers_url,
              open_roles := byCompanyCounts cleaned c.company_name }, ?_, rfl, ?_⟩
    · exact List.mem_map.mpr ⟨c, hc, rfl⟩
    · rw [byCompanyCounts_eq]
      exact List.countP_eq_zero.mpr
        (fun j hj => by simp [beq_eq_false_iff_ne.mpr (hnone j hj)])

/-- C2 witness: the theorem applied to a one-company roster with an empty
clean dataset. -/
theorem coverage_and_summary_per_company_app :
    ((orchestrate witAdapters "now" [witCompany]).2.get
        ⟨0, by decide⟩).company_name = "A"
    ∧ ∃ s ∈ companySummary [witCompany] ([] : List RawJob),
        s.company_name = "A" ∧ s.open_roles = 0 := by
  constructor
  · have h := (coverage_and_summary_per_company witAdapters "now" [witCompany] []).2.1
      0 (by decide) (by decide)
    rw [h]
    rfl
  · have h := (coverage_and_summary_per_company witAdapters "now" [witCompany] []).2.2.2.2
      witCompany (by simp) (fun j hj => absurd hj (List.not_mem_nil j))
    obtain ⟨s, hs1, hs2, hs3⟩ := h
    exact ⟨s, hs1, hs2, hs3⟩

theorem detectSource_mem (url : String) : detectSource url ∈ knownSources := by
  simp only [detectSource, knownSources]
  split_ifs <;> simp

theorem caughtScrape_status (r : Except String (List RawJob)) :
    (caughtScrape r).1 = "ok" ∨ (caughtScrape r).1 = "failed" := by
  cases r <;> simp [caughtScrape]

theorem runScrape_status (adapters : String → Company → Except String (List RawJob))
    (source : String) (c : Company) (h : source ∈ knownSources) :
    (runScrape adapters source c).1 = "ok" ∨ (runScrape adapters source c).1 = "failed" := by
  simp only [knownSources, List.mem_cons, List.not_mem_nil, or_false] at h
  rcases h with rfl | rfl | rfl | rfl | rfl | rfl | rfl | rfl <;>
    simp [runScrape] <;> exact caughtScrape_status _

theorem processCompany_status (adapters : String → Company → Except String (List RawJob))
    (now : String) (c : Company) :
    (processCompany adapters now c).1.status = "ok"
    ∨ (processCompany adapters now c).1.status = "empty"
    ∨ (processCompany adapters now c).1.status = "failed" := by
  have hstat : (processCompany adapters now c).1.status
      = (if (runScrape adapters (detectSource c.careers_url) c).1 == "ok"
            && (runScrape adapters (detectSource c.careers_url) c).2.2.isEmpty
         then "empty"
         else (runScrape adapters (detectSource c.careers_url) c).1) := rfl
  rw [hstat]
  cases hb : ((runScrape adapters (detectSource c.careers_url) c).1 == "ok"
      && (runScrape adapters (detectSource c.careers_url) c).2.2.isEmpty) with
  | true =>
    rw [if_pos rfl]
    exact Or.inr (Or.inl rfl)
  | false =>
    rw [if_neg Bool.false_ne_true]
    rcases runScrape_status adapters (detectSource c.careers_url) c
        (detectSource_mem _) with h | h
    · exact Or.inl h
    · exact Or.inr (Or.inr h)

/-- C9: the classifier is total and always answers one of the eight
dispatched source types, so the unsupported branch of the orchestrator is
unreachable: every coverage record carries status ok, empty or failed. -/
theorem classifier_total_statuses :
    (∀ url, detectSource url ∈ knownSources)
    ∧ ∀ (adapters : String → Company → Except String (List RawJob)) (now : String)
        (companies : List Company) (r : CoverageRecord),
        r ∈ (orchestrate adapters now companies).2 →
        r.status = "ok" ∨ r.status = "empty" ∨ r.status = "failed" := by
  refine ⟨detectSource_mem, ?_⟩
  intro adapters now companies r hr
  rw [orchestrate_coverage] at hr
  obtain ⟨c, _, rfl⟩ := List.mem_map.mp hr
  exact processCompany_status adapters now c

/-- C9 witness: the status of the coverage record of a concrete run over a
one-company roster whose adapters return no jobs. -/
theorem classifier_total_statuses_app :
    detectSource "https://x.example/careers" ∈ knownSources
    ∧ ((processCompany witAdapters "now" witCompany).1.status = "ok"
       ∨ (processCompany witAdapters "now" witCompany).1.status = "empty"
       ∨ (processCompany witAdapters "now" witCompany).1.status = "failed") := by
  refine ⟨classifier_total_statuses.1 "https://x.example/careers", ?_⟩
  exact classifier_total_statuses.2 witAdapters "now" [witCompany]
    (processCompany witAdapters "now" witCompany).1 (by decide)

theorem breezyAnchorJob_origin (parse : String → Option Url)
    (resolve : String → String → Option String) (hash : String → String)
    (co cu now : String) (a : Anchor) (j : RawJob)
    (h : breezyAnchorJob parse resolve hash co cu now a = some j) :
    sameOriginOnly parse cu j.job_url = true := by
  simp only [breezyAnchorJob] at h
  by_cases h1 : (!(containsSub a.href "/p/")) = true
  · rw [if_pos h1] at h; simp at h
  · rw [if_neg h1] at h
    cases hres : resolve cu a.href with
    | none => rw [hres] at h; simp at h
    | some url =>
      rw [hres] at h
      simp only [] at h
      by_cases h2 : (!(sameOriginOnly parse cu url)) = true
      · rw [if_pos h2] at h; simp at h
      · rw [if_neg h2] at h
        by_cases h3 : (cleanText a.text == ""
            || lowerStr (cleanText a.text) == "apply") = true
        · rw [if_pos h3] at h; simp at h
        · rw [if_neg h3] at h
          have hj := Option.some.inj h
          have hurl : j.job_url = url := by rw [← hj]; rfl
          rw [hurl]
          simpa using h2

theorem breezyAnchorJob_cross_none (parse : String → Option Url)
    (resolve : String → String → Option String) (hash : String → String)
    (co cu now : String) (a : Anchor)
    (hcross : ∀ url, resolve cu a.href = some url →
      sameOriginOnly parse cu url = false) :
    breezyAnchorJob parse resolve hash co cu now a = none := by
  simp only [breezyAnchorJob]
  by_cases h1 : (!(containsSub a.href "/p/")) = true
  · rw [if_pos h1]
  · rw [if_neg h1]
    cases hres : resolve cu a.href with
    | none => rfl
    | some url =>
      simp only []
      rw [hcross url hres]
      simp

theorem ripplingAnchorJob_origin (parse : String → Option Url)
    (resolve : String → String → Option String) (hash : String → String)
    (co cu now : String) (a : Anchor) (j : RawJob)
    (h : ripplingAnchorJob parse resolve hash co cu now a = some j) :
    sameOriginOnly parse cu j.job_url = true := by
  simp only [ripplingAnchorJob] at h
  by_cases h1 : (!(containsSub a.href "/jobs/")) = true
  · rw [if_pos h1] at h; simp at h
  · rw [if_neg h1] at h
    cases hres : resolve cu a.href with
    | none => rw [hres] at h; simp at h
    | some url =>
      rw [hres] at h
      simp only [] at h
      by_cases h2 : (!(sameOriginOnly parse cu url)) = true
      · rw [if_pos h2] at h; simp at h
      · rw [if_neg h2] at h
        by_cases h3 : (cleanText a.text == "") = true
        · rw [if_pos h3] at h; simp at h
        · rw [if_neg h3] at h
          have hj := Option.some.inj h
          have hurl : j.job_url = url := by rw [← hj]; rfl
          rw [hurl]
          simpa using h2

theorem ripplingAnchorJob_cross_none (parse : String → Option Url)
    (resolve : String → String → Option String) (hash : String → String)
    (co cu now : String) (a : Anchor)
    (hcross : ∀ url, resolve cu a.href = some url →
      sameOriginOnly parse cu url = false) :
    ripplingAnchorJob parse resolve hash co cu now a = none := by
  simp only [ripplingAnchorJob]
  by_cases h1 : (!(containsSub a.href "/jobs/")) = true
  · rw [if_pos h1]
  · rw [if_neg h1]
    cases hres : resolve cu a.href with
    | none => rfl
    | some url =>
      simp only []
      rw [hcross url hres]
      simp

theorem builtInAnchorJob_origin (parse : String → Option Url)
    (resolve : String → String → Option String) (hash : String → String)
    (co cu now : String) (a : Anchor) (j : RawJob)
    (h : builtInAnchorJob parse resolve hash co cu now a = some j) :
    sameOriginOnly parse cu j.job_url = true := by
  simp only [builtInAnchorJob] at h
  cases hres : resolve cu a.href with
  | none => rw [hres] at h; simp at h
  | some url =>
    rw [hres] at h
    simp only [] at h
    by_cases h2 : (!(sameOriginOnly parse cu url)) = true
    · rw [if_pos h2] at h; simp at h
    · rw [if_neg h2] at h
      by_cases h3 : (!(builtInPathTest url)) = true
      · rw [if_pos h3] at h; simp at h
      · rw [if_neg h3] at h
        by_cases h4 : (cleanText a.text == ""
            || decide ((cleanText a.text).length < 3)) = true
        · rw [if_pos h4] at h; simp at h
        · rw [if_neg h4] at h
          have hj := Option.some.inj h
          have hurl : j.job_url = url := by rw [← hj]; rfl
          rw [hurl]
          simpa using h2

theorem builtInAnchorJob_cross_none (parse : String → Option Url)
    (resolve : String → String → Option String) (hash : String → String)
    (co cu now : String) (a : Anchor)
    (hcross : ∀ url, resolve cu a.href = some url →
      sameOriginOnly parse cu url = false) :
    builtInAnchorJob parse resolve hash co cu now a = none := by
  simp only [builtInAnchorJob]
  cases hres : resolve cu a.href with
  | none => rfl
  | some url =>
    simp only []
    rw [hcross url hres]
    simp

/-- C3: for each of the three static-board adapters, an anchor whose
resolved URL is not same-origin with the careers URL (in particular one of
a different origin) contributes nothing to the output, whatever its text,
and every record the adapter does return has a same-origin job URL. -/
theorem static_adapters_cross_origin_excluded (parse : String → Option Url)
    (resolve : String → String → Option String) (hash : String → String)
    (co cu now : String) (l1 l2 : List Anchor) (a : Anchor)
    (hcross : ∀ url, resolve cu a.href = some url →
      sameOriginOnly parse cu url = false) :
    (scrapeBreezy parse resolve hash co cu now (l1 ++ a :: l2)
       = scrapeBreezy parse resolve hash co cu now (l1 ++ l2)
     ∧ ∀ j ∈ scrapeBreezy parse resolve hash co cu now (l1 ++ a :: l2),
         sameOriginOnly parse cu j.job_url = true)
    ∧ (scrapeRippling parse resolve hash co cu now (l1 ++ a :: l2)
       = scrapeRippling parse resolve hash co cu now (l1 ++ l2)
     ∧ ∀ j ∈ scrapeRippling parse resolve hash co cu now (l1 ++ a :: l2),
         sameOriginOnly parse cu j.job_url = true)
    ∧ (scrapeBuiltIn parse resolve hash co cu now (l1 ++ a :: l2)
       = scrapeBuiltIn parse resolve hash co cu now (l1 ++ l2)
     ∧ ∀ j ∈ scrapeBuiltIn parse resolve hash co cu now (l1 ++ a :: l2),
         sameOriginOnly parse cu j.job_url = true) := by
  refine ⟨⟨?_, ?_⟩, ⟨?_, ?_⟩, ⟨?_, ?_⟩⟩
  · simp only [scrapeBreezy]
    rw [List.filterMap_append, List.filterMap_append,
        List.filterMap_cons_none (breezyAnchorJob_cross_none parse resolve hash co cu now a hcross)]
  · intro j hj
    have hj2 := (dedupByGo_sublist _ _ _).subset hj
    obtain ⟨b, _, hsome⟩ := List.mem_filterMap.mp hj2
    exact breezyAnchorJob_origin parse resolve hash co cu now b j hsome
  · simp only [scrapeRippling]
    rw [List.filterMap_append, List.filterMap_append,
        List.filterMap_cons_none (ripplingAnchorJob_cross_none parse resolve hash co cu now a hcross)]
  · intro j hj
    have hj2 := (dedupByGo_sublist _ _ _).subset hj
    obtain ⟨b, _, hsome⟩ := List.mem_filterMap.mp hj2
    exact ripplingAnchorJob_origin parse resolve hash co cu now b j hsome
  · simp only [scrapeBuiltIn]
    rw [List.filterMap_append, List.filterMap_append,
        List.filterMap_cons_none (builtInAnchorJob_cross_none parse resolve hash co cu now a hcross)]
  · intro j hj
    have hj2 := (dedupByGo_sublist _ _ _).subset hj
    obtain ⟨b, _, hsome⟩ := List.mem_filterMap.mp hj2
    exact builtInAnchorJob_origin parse resolve hash co cu now b j hsome

/-- C3 witness: a concrete cross-origin anchor with job-looking href and a
plausible text is dropped by all three static adapters on a concrete page. -/
theorem static_adapters_cross_origin_excluded_app :
    (scrapeBreezy witParse witResolveId (fun _ => "h0") "X"
        "https://good.example/careers" "now" ([] ++ evilAnchor :: [])
       = scrapeBreezy witParse witResolveId (fun _ => "h0") "X"
        "https://good.example/careers" "now" ([] ++ [])
     ∧ ∀ j ∈ scrapeBreezy witParse witResolveId (fun _ => "h0") "X"
        "https://good.example/careers" "now" ([] ++ evilAnchor :: []),
         sameOriginOnly witParse "https://good.example/careers" j.job_url = true)
    ∧ (scrapeRippling witParse witResolveId (fun _ => "h0") "X"
        "https://good.example/careers" "now" ([] ++ evilAnchor :: [])
       = scrapeRippling witParse witResolveId (fun _ => "h0") "X"
        "https://good.example/careers" "now" ([] ++ [])
     ∧ ∀ j ∈ scrapeRippling witParse witResolveId (fun _ => "h0") "X"
        "https://good.example/careers" "now" ([] ++ evilAnchor :: []),
         sameOriginOnly witParse "https://good.example/careers" j.job_url = true)
    ∧ (scrapeBuiltIn witParse witResolveId (fun _ => "h0") "X"
        "https://good.example/careers" "now" ([] ++ evilAnchor :: [])
       = scrapeBuiltIn witParse witResolveId (fun _ => "h0") "X"
        "https://good.example/careers" "now" ([] ++ [])
     ∧ ∀ j ∈ scrapeBuiltIn witParse witResolveId (fun _ => "h0") "X"
        "https://good.example/careers" "now" ([] ++ evilAnchor :: []),
         sameOriginOnly witParse "https://good.example/careers" j.job_url = true) :=
  static_adapters_cross_origin_excluded witParse witResolveId (fun _ => "h0") "X"
    "https://good.example/careers" "now" [] [] evilAnchor
    (fun url h => by
      have h2 : "https://evil.example/p/1" = url := Option.some.inj h
      rw [← h2]
      decide)

/-- C6: the generic-html fallback adapter does not de-duplicate its output
by resolved URL: its seen set is declared but never consulted, so a page
listing the same job link twice yields two records with the same job_url.
The claim holds of the other adapters but the code of this one omits the
filter. -/
theorem custom_html_missing_url_dedup :
    scrapeCustomHtml witParse witResolveJoin (fun _ => "h0") "X"
        "https://good.example/careers" "now" [c6Anchor, c6Anchor]
      = some [c6Job, c6Job]
    ∧ ¬ (([c6Job, c6Job].map (fun j => j.job_url)).Nodup) :=
  ⟨by decide, by decide⟩

/-- C10: the rejection gates run only on the original cleaned title, before
any stripping, and the stripped title is never re-checked: the record titled
Design passes every gate, its title is then stripped to the empty string by
the bare department-suffix replace, and the record is accepted with an empty
output title. -/
theorem department_only_title_accepted_empty :
    normalizeJob designRec
      = some { designRec with job_title := "", job_location := "Not listed" }
    ∧ (normalizeJob designRec).isSome = true :=
  ⟨by decide, by decide⟩

theorem noLead_dropWhile (l : List Char) :
    noLeadWs (l.dropWhile isWsChar) = true := by
  induction l with
  | nil => rfl
  | cons c cs ih =>
    by_cases h : isWsChar c = true
    · simpa [List.dropWhile, h] using ih
    · simp [List.dropWhile, h, noLeadWs]

theorem dropWhile_of_noLead (l : List Char) (h : noLeadWs l = true) :
    l.dropWhile isWsChar = l := by
  cases l with
  | nil => rfl
  | cons c cs =>
    simp only [noLeadWs, Bool.not_eq_true'] at h
    simp [List.dropWhile, h]

theorem dropWhile_decomp (l : List Char) :
    ∃ t, l = t ++ l.dropWhile isWsChar := by
  induction l with
  | nil => exact ⟨[], rfl⟩
  | cons c cs ih =>
    by_cases h : isWsChar c = true
    · obtain ⟨t, ht⟩ := ih
      exact ⟨c :: t, by simp [List.dropWhile, h, ← ht]⟩
    · exact ⟨[], by simp [List.dropWhile, h]⟩

theorem rtrimWs_decomp (l : List Char) : ∃ t, l = rtrimWsL l ++ t := by
  obtain ⟨t, ht⟩ := dropWhile_decomp l.reverse
  refine ⟨t.reverse, ?_⟩
  conv_lhs => rw [← List.reverse_reverse l, ht]
  rw [List.reverse_append]
  rfl

theorem noLead_trimList (l : List Char) : noLeadWs (trimList l) = true := by
  have hX := noLead_dropWhile l
  obtain ⟨t, ht⟩ := rtrimWs_decomp (l.dropWhile isWsChar)
  show noLeadWs (rtrimWsL (l.dropWhile isWsChar)) = true
  cases hR : rtrimWsL (l.dropWhile isWsChar) with
  | nil => rfl
  | cons c cs =>
    rw [hR] at ht
    rw [ht] at hX
    simpa [noLeadWs] using hX

theorem noTrail_trimList (l : List Char) :
    noLeadWs (trimList l).reverse = true := by
  show noLeadWs (rtrimWsL (l.dropWhile isWsChar)).reverse = true
  simp only [rtrimWsL, List.reverse_reverse]
  exact noLead_dropWhile _

theorem trim_of_fixed (l : List Char) (hnl : noLeadWs l = true)
    (hnt : noLeadWs l.reverse = true) : trimList l = l := by
  show rtrimWsL (l.dropWhile isWsChar) = l
  rw [dropWhile_of_noLead l hnl]
  show (l.reverse.dropWhile isWsChar).reverse = l
  rw [dropWhile_of_noLead l.reverse hnt, List.reverse_reverse]

theorem ws_head_ok (a : Char) (X : List Char) (h : wellSpaced (a :: X) = true) :
    (!(isWsChar a) || a == ' ') = true := by
  cases X with
  | nil => simpa [wellSpaced] using h
  | cons b r =>
    simp only [wellSpaced, pairOkWs, Bool.and_eq_true] at h
    rcases Bool.or_eq_true_iff.mp h.1 with h1 | h1
    · simp [h1]
    · rw [Bool.and_eq_true] at h1
      simp [h1.1]

theorem ws_head_space (a : Char) (X : List Char) (h : wellSpaced (a :: X) = true)
    (hws : isWsChar a = true) : a = ' ' := by
  have := ws_head_ok a X h
  rw [hws] at this
  simpa using this

theorem ws_pair_next (a b : Char) (r : List Char)
    (h : wellSpaced (a :: b :: r) = true) (hws : isWsChar a = true) :
    isWsChar b = false := by
  simp only [wellSpaced, pairOkWs, Bool.and_eq_true] at h
  rcases Bool.or_eq_true_iff.mp h.1 with h1 | h1
  · rw [hws] at h1
    simp at h1
  · rw [Bool.and_eq_true] at h1
    simpa using h1.2

theorem wellSpaced_tail (c : Char) (rest : List Char)
    (h : wellSpaced (c :: rest) = true) : wellSpaced rest = true := by
  cases rest with
  | nil => rfl
  | cons b r =>
    have h2 : (pairOkWs c b && wellSpaced (b :: r)) = true := by simpa [wellSpaced] using h
    rw [Bool.and_eq_true] at h2
    exact h2.2

theorem wellSpaced_cons_nonWs (c : Char) (X : List Char)
    (hc : isWsChar c = false) (h : wellSpaced X = true) :
    wellSpaced (c :: X) = true := by
  cases X with
  | nil => simp [wellSpaced, hc]
  | cons b r => simp [wellSpaced, pairOkWs, hc, h]

theorem wellSpaced_cons_space (X : List Char) (hnl : noLeadWs X = true)
    (h : wellSpaced X = true) : wellSpaced (' ' :: X) = true := by
  cases X with
  | nil => simp [wellSpaced]
  | cons b r =>
    simp only [noLeadWs, Bool.not_eq_true'] at hnl
    simp [wellSpaced, pairOkWs, hnl, h]

theorem noLead_collapse_true (l : List Char) :
    noLeadWs (collapseGo true l) = true := by
  induction l with
  | nil => rfl
  | cons c cs ih =>
    by_cases h : isWsChar c = true
    · simpa [collapseGo, h] using ih
    · simp [collapseGo, h, noLeadWs]

theorem wellSpaced_collapse (l : List Char) :
    ∀ b, wellSpaced (collapseGo b l) = true := by
  induction l with
  | nil => intro b; rfl
  | cons c cs ih =>
    intro b
    by_cases h : isWsChar c = true
    · cases b with
      | true => simpa [collapseGo, h] using ih true
      | false =>
        simp only [collapseGo, h, if_pos rfl, Bool.false_eq_true, if_false]
        exact wellSpaced_cons_space _ (noLead_collapse_true cs) (ih true)
    · simp only [collapseGo, h, Bool.false_eq_true, if_false]
      exact wellSpaced_cons_nonWs c _ (by simpa using h) (ih false)

theorem collapse_flag_skip (l : List Char) (hnl : noLeadWs l = true) :
    collapseGo true l = collapseGo false l := by
  cases l with
  | nil => rfl
  | cons c cs =>
    simp only [noLeadWs, Bool.not_eq_true'] at hnl
    simp [collapseGo, hnl]

theorem collapse_of_wellSpaced (l : List Char) (h : wellSpaced l = true) :
    collapseGo false l = l := by
  induction l with
  | nil => rfl
  | cons c cs ih =>
    by_cases hc : isWsChar c = true
    · have hsp : c = ' ' := ws_head_space c cs h hc
      have htail : wellSpaced cs = true := wellSpaced_tail c cs h
      cases cs with
      | nil => simp [collapseGo, hc, hsp]
      | cons b r =>
        have hb : isWsChar b = false := ws_pair_next c b r h hc
        have hskip : collapseGo true (b :: r) = collapseGo false (b :: r) :=
          collapse_flag_skip (b :: r) (by simp [noLeadWs, hb])
        subst hsp
        rw [show collapseGo false (' ' :: b :: r) = ' ' :: collapseGo true (b :: r) from by
          simp [collapseGo, (by decide : isWsChar ' ' = true)]]
        rw [hskip, ih htail]
    · have htail : wellSpaced cs = true := wellSpaced_tail c cs h
      simp [collapseGo, hc, ih htail]

theorem wellSpaced_append_left (p t : List Char)
    (h : wellSpaced (p ++ t) = true) : wellSpaced p = true := by
  induction p with
  | nil => rfl
  | cons a p' ih =>
    cases p' with
    | nil =>
      cases t with
      | nil => exact h
      | cons b r =>
        have := ws_head_ok a (b :: r) (by simpa using h)
        simpa [wellSpaced] using this
    | cons b r =>
      have h2 : wellSpaced (a :: b :: (r ++ t)) = true := by simpa using h
      simp only [wellSpaced, Bool.and_eq_true] at h2 ⊢
      exact ⟨h2.1, by simpa [wellSpaced] using ih (by simpa using h2.2)⟩

theorem wellSpaced_append_right (p t : List Char)
    (h : wellSpaced (p ++ t) = true) : wellSpaced t = true := by
  induction p with
  | nil => exact h
  | cons a p' ih => exact ih (wellSpaced_tail a (p' ++ t) (by simpa using h))

theorem wellSpaced_trimList (l : List Char) (h : wellSpaced l = true) :
    wellSpaced (trimList l) = true := by
  obtain ⟨t1, ht1⟩ := dropWhile_decomp l
  have h1 : wellSpaced (l.dropWhile isWsChar) = true :=
    wellSpaced_append_right t1 _ (ht1 ▸ h)
  obtain ⟨t2, ht2⟩ := rtrimWs_decomp (l.dropWhile isWsChar)
  exact wellSpaced_append_left _ t2 (ht2 ▸ h1)

theorem cleanFixed_wellSpaced (s : String) (h : cleanText s = s) :
    wellSpaced s.data = true := by
  have hd : trimList (collapseGo false s.data) = s.data := congrArg String.data h
  rw [← hd]
  exact wellSpaced_trimList _ (wellSpaced_collapse s.data false)

theorem cleanFixed_noLead (s : String) (h : cleanText s = s) :
    noLeadWs s.data = true := by
  have hd : trimList (collapseGo false s.data) = s.data := congrArg String.data h
  rw [← hd]
  exact noLead_trimList _

theorem cleanFixed_noTrail (s : String) (h : cleanText s = s) :
    noLeadWs s.data.reverse = true := by
  have hd : trimList (collapseGo false s.data) = s.data := congrArg String.data h
  rw [← hd]
  exact noTrail_trimList _

theorem cleanText_of_props (s : String) (hws : wellSpaced s.data = true)
    (hnl : noLeadWs s.data = true) (hnt : noLeadWs s.data.reverse = true) :
    cleanText s = s := by
  show strOf (trimList (collapseGo false s.data)) = s
  rw [collapse_of_wellSpaced s.data hws, trim_of_fixed s.data hnl hnt]
  exact strOf_data s

theorem remote_data (l : String) :
    ("Remote — " ++ l).data
      = 'R' :: 'e' :: 'm' :: 'o' :: 't' :: 'e' :: ' ' :: '—' :: ' ' :: l.data := by
  rw [String.data_append]
  rw [show "Remote — ".data = ['R', 'e', 'm', 'o', 't', 'e', ' ', '—', ' '] from by decide]
  rfl

theorem lowerL_remote_data (l : String) :
    lowerL (("Remote — " ++ l).data)
      = 'r' :: 'e' :: 'm' :: 'o' :: 't' :: 'e' :: ' ' :: '—' :: ' ' :: lowerL l.data := by
  rw [remote_data]
  simp only [lowerL, List.map_cons]
  rw [show Char.toLower 'R' = 'r' from by decide,
      show Char.toLower 'e' = 'e' from by decide,
      show Char.toLower 'm' = 'm' from by decide,
      show Char.toLower 'o' = 'o' from by decide,
      show Char.toLower 't' = 't' from by decide,
      show Char.toLower ' ' = ' ' from by decide,
      show Char.toLower '—' = '—' from by decide]

theorem data_ne_nil_of_ne_empty (l : String) (h : l ≠ "") : l.data ≠ [] := by
  intro hx
  apply h
  have := congrArg strOf hx
  rw [strOf_data] at this
  exact this

theorem remote_append_ne_empty (l : String) :
    (("Remote — " ++ l) == "") = false := by
  rw [beq_eq_false_iff_ne]
  intro h
  have hd := congrArg String.data h
  rw [remote_data] at hd
  exact List.noConfusion hd

theorem lower_remote_ne_notlisted (l : String) :
    (lowerStr ("Remote — " ++ l) == "not listed") = false := by
  rw [beq_eq_false_iff_ne]
  intro h
  have hd := congrArg String.data h
  have hl : (lowerStr ("Remote — " ++ l)).data = lowerL (("Remote — " ++ l).data) := rfl
  rw [hl, lowerL_remote_data,
      show "not listed".data = 'n' :: "ot listed".data from by decide] at hd
  injection hd with h1 _
  exact absurd h1 (by decide)

theorem contains_remote_head (X : List Char) :
    containsL ("remote".data) ('r' :: 'e' :: 'm' :: 'o' :: 't' :: 'e' :: X) = true := by
  rw [show "remote".data = ['r', 'e', 'm', 'o', 't', 'e'] from by decide]
  simp [containsL, isPrefixL]

theorem contains_lower_remote (l : String) :
    containsSub (lowerStr ("Remote — " ++ l)) "remote" = true := by
  show containsL ("remote".data) (lowerL (("Remote — " ++ l).data)) = true
  rw [lowerL_remote_data]
  exact contains_remote_head _

theorem containsWordAux_cons_miss (n0 : Char) (ns : List Char) (prev : Option Char)
    (c : Char) (rest : List Char) (hc : (n0 == c) = false) :
    containsWordAux (n0 :: ns) prev (c :: rest)
      = containsWordAux (n0 :: ns) (some c) rest := by
  simp [containsWordAux, isPrefixL, hc]

theorem containsWordAux_prev_inv (needle : List Char) (p q : Option Char)
    (hpq : boundaryOk p = boundaryOk q) (l : List Char) :
    containsWordAux needle p l = containsWordAux needle q l := by
  cases l with
  | nil => rfl
  | cons c cs => simp [containsWordAux, hpq]

theorem fd_skip_remote (X : List Char) :
    containsWordAux (lowerL "forward deployed".data) none
      ('r' :: 'e' :: 'm' :: 'o' :: 't' :: 'e' :: ' ' :: '—' :: ' ' :: X)
    = containsWordAux (lowerL "forward deployed".data) none X := by
  rw [show lowerL "forward deployed".data = 'f' :: lowerL "orward deployed".data from by
    decide]
  rw [containsWordAux_cons_miss _ _ _ _ _ (by decide),
      containsWordAux_cons_miss _ _ _ _ _ (by decide),
      containsWordAux_cons_miss _ _ _ _ _ (by decide),
      containsWordAux_cons_miss _ _ _ _ _ (by decide),
      containsWordAux_cons_miss _ _ _ _ _ (by decide),
      containsWordAux_cons_miss _ _ _ _ _ (by decide),
      containsWordAux_cons_miss _ _ _ _ _ (by decide),
      containsWordAux_cons_miss _ _ _ _ _ (by decide),
      containsWordAux_cons_miss _ _ _ _ _ (by decide)]
  exact containsWordAux_prev_inv _ (some ' ') none (by decide) X

theorem fd_remote_append (l : String)
    (hK : containsWord (lowerL "forward deployed".data) (lowerL l.data) = false) :
    containsWord (lowerL "forward deployed".data)
      (lowerL (("Remote — " ++ l).data)) = false := by
  show containsWordAux (lowerL "forward deployed".data) none
    (lowerL (("Remote — " ++ l).data)) = false
  rw [lowerL_remote_data, fd_skip_remote]
  exact hK

theorem cleanText_remote_append (l : String) (h2 : cleanText l = l) (hne : l ≠ "") :
    cleanText ("Remote — " ++ l) = "Remote — " ++ l := by
  have hws := cleanFixed_wellSpaced l h2
  have hnl := cleanFixed_noLead l h2
  have hnt := cleanFixed_noTrail l h2
  have hld : l.data ≠ [] := data_ne_nil_of_ne_empty l hne
  apply cleanText_of_props
  · rw [remote_data]
    have w1 : wellSpaced (' ' :: l.data) = true := wellSpaced_cons_space _ hnl hws
    have w2 : wellSpaced ('—' :: ' ' :: l.data) = true :=
      wellSpaced_cons_nonWs _ _ (by decide) w1
    have w3 : wellSpaced (' ' :: '—' :: ' ' :: l.data) = true :=
      wellSpaced_cons_space _ (by simp only [noLeadWs]; decide) w2
    have w4 : wellSpaced ('e' :: ' ' :: '—' :: ' ' :: l.data) = true :=
      wellSpaced_cons_nonWs _ _ (by decide) w3
    have w5 : wellSpaced ('t' :: 'e' :: ' ' :: '—' :: ' ' :: l.data) = true :=
      wellSpaced_cons_nonWs _ _ (by decide) w4
    have w6 : wellSpaced ('o' :: 't' :: 'e' :: ' ' :: '—' :: ' ' :: l.data) = true :=
      wellSpaced_cons_nonWs _ _ (by decide) w5
    have w7 : wellSpaced ('m' :: 'o' :: 't' :: 'e' :: ' ' :: '—' :: ' ' :: l.data) = true :=
      wellSpaced_cons_nonWs _ _ (by decide) w6
    have w8 : wellSpaced ('e' :: 'm' :: 'o' :: 't' :: 'e' :: ' ' :: '—' :: ' ' :: l.data)
        = true := wellSpaced_cons_nonWs _ _ (by decide) w7
    exact wellSpaced_cons_nonWs _ _ (by decide) w8
  · rw [remote_data]
    simp only [noLeadWs]
    decide
  · rw [remote_data]
    show noLeadWs ((['R', 'e', 'm', 'o', 't', 'e', ' ', '—', ' '] ++ l.data).reverse) = true
    rw [List.reverse_append]
    cases hcase : l.data.reverse with
    | nil => exact absurd (by simpa using hcase) hld
    | cons c cs =>
      have h1 : noLeadWs (c :: cs) = true := hcase ▸ hnt
      simpa [noLeadWs] using h1

theorem normalizeJob_clean_eval (j : RawJob)
    (h1 : cleanText j.job_title = j.job_title)
    (h2 : cleanText j.job_location = j.job_location)
    (h3 : (j.job_title == "" || decide (j.job_title.length < 3)) = false)
    (h4 : looksLikeJobTitle j.job_title = true)
    (h5 : (!(j.job_url == "") && urlJunkTest j.job_url) = false)
    (h6 : hasPlaceholder j.job_title = false)
    (hA : trimStr (takeUntilSub j.job_title "\n") = j.job_title)
    (hB : trimStr (takeUntilSub j.job_title "Responsibilities") = j.job_title)
    (hC : trimStr (takeUntilSub j.job_title "Description") = j.job_title)
    (hD : trimStr (takeUntilSub j.job_title "About the role") = j.job_title)
    (hE : decide (j.job_title.length > 90) = false)
    (hF : stripDeptWs j.job_title = j.job_title)
    (hG : stripDeptDash j.job_title = j.job_title)
    (hH : containsSub j.job_title "•" = false)
    (hI : compStrip j.job_title = j.job_title)
    (hJ : stripDeptBare j.job_title = j.job_title)
    (hK : containsWord (lowerL "forward deployed".data)
      (lowerL j.job_location.data) = false)
    (hL : (j.job_location == "") = false)
    (hM : (lowerStr j.job_location == "not listed") = false) :
    normalizeJob j = some { j with job_location :=
      if (containsWord ("remote".data) (lowerStr j.job_title).data
          && !(containsSub (lowerStr j.job_location) "remote"))
      then "Remote — " ++ j.job_location else j.job_location } := by
  by_cases hc : (containsWord ("remote".data) (lowerStr j.job_title).data
      && !(containsSub (lowerStr j.job_location) "remote")) = true
  · simp only [normalizeJob, h1, h2, h3, h4, h5, h6, hA, hB, hC, hD, hE, hF, hG, hH,
      hI, hJ, hK, hL, hM, hc, Bool.not_true, Bool.false_eq_true, if_false, if_true,
      Bool.or_self, Bool.false_or, Bool.or_false, if_pos rfl,
      remote_append_ne_empty j.job_location]
  · rw [Bool.not_eq_true] at hc
    simp only [normalizeJob, h1, h2, h3, h4, h5, h6, hA, hB, hC, hD, hE, hF, hG, hH,
      hI, hJ, hK, hL, hM, hc, Bool.not_true, Bool.false_eq_true, if_false, if_true,
      Bool.or_self, Bool.false_or, Bool.or_false]

/-- C8: the normalizer is idempotent on already-clean records: when the
title is a fixed point of every cleanup step and passes every gate, and the
location is explicit (cleanText-fixed, non-empty, not the sentinel, without
the forward-deployed qualifier), normalizing the normalizer output again
returns it unchanged. -/
theorem normalize_idempotent_on_clean (j : RawJob)
    (h1 : cleanText j.job_title = j.job_title)
    (h2 : cleanText j.job_location = j.job_location)
    (h3 : (j.job_title == "" || decide (j.job_title.length < 3)) = false)
    (h4 : looksLikeJobTitle j.job_title = true)
    (h5 : (!(j.job_url == "") && urlJunkTest j.job_url) = false)
    (h6 : hasPlaceholder j.job_title = false)
    (hA : trimStr (takeUntilSub j.job_title "\n") = j.job_title)
    (hB : trimStr (takeUntilSub j.job_title "Responsibilities") = j.job_title)
    (hC : trimStr (takeUntilSub j.job_title "Description") = j.job_title)
    (hD : trimStr (takeUntilSub j.job_title "About the role") = j.job_title)
    (hE : decide (j.job_title.length > 90) = false)
    (hF : stripDeptWs j.job_title = j.job_title)
    (hG : stripDeptDash j.job_title = j.job_title)
    (hH : containsSub j.job_title "•" = false)
    (hI : compStrip j.job_title = j.job_title)
    (hJ : stripDeptBare j.job_title = j.job_title)
    (hK : containsWord (lowerL "forward deployed".data)
      (lowerL j.job_location.data) = false)
    (hL : (j.job_location == "") = false)
    (hM : (lowerStr j.job_location == "not listed") = false) :
    ∀ r, normalizeJob j = some r → normalizeJob r = some r := by
  intro r hr
  have he := normalizeJob_clean_eval j h1 h2 h3 h4 h5 h6 hA hB hC hD hE hF hG hH hI
    hJ hK hL hM
  rw [he] at hr
  have hrr := Option.some.inj hr
  by_cases hc : (containsWord ("remote".data) (lowerStr j.job_title).data
      && !(containsSub (lowerStr j.job_location) "remote")) = true
  · rw [if_pos hc] at hrr
    subst hrr
    have hlne : j.job_location ≠ "" := beq_eq_false_iff_ne.mp hL
    have h2r : cleanText ("Remote — " ++ j.job_location) = "Remote — " ++ j.job_location :=
      cleanText_remote_append j.job_location h2 hlne
    have hKr : containsWord (lowerL "forward deployed".data)
        (lowerL ("Remote — " ++ j.job_location).data) = false :=
      fd_remote_append j.job_location hK
    have her := normalizeJob_clean_eval
      { j with job_location := "Remote — " ++ j.job_location }
      h1 h2r h3 h4 h5 h6 hA hB hC hD hE hF hG hH hI hJ hKr
      (remote_append_ne_empty j.job_location)
      (lower_remote_ne_notlisted j.job_location)
    rw [her, contains_lower_remote j.job_location]
    simp
  · rw [Bool.not_eq_true] at hc
    rw [if_neg (by simp [hc])] at hrr
    have hrj : r = j := by
      rw [← hrr]
    subst hrj
    rw [he, if_neg (by simp [hc])]

/-- C8 witness: the theorem applied to a concrete clean record, which the
normalizer maps to itself. -/
theorem normalize_idempotent_on_clean_app : normalizeJob cleanRec = some cleanRec :=
  normalize_idempotent_on_clean cleanRec (by decide) (by decide) (by decide) (by decide)
    (by decide) (by decide) (by decide) (by decide) (by decide) (by decide) (by decide)
    (by decide) (by decide) (by decide) (by decide) (by decide) (by decide) (by decide)
    (by decide) cleanRec (by decide)

end PortfolioJobs
